import Mathlib

/-!
Verification of the argument-resolution and subcommand-dispatch engine of the
clifford CLI-parsing library (package `core`, file `core/parse.go`, plus the
`internal/common` helpers), against its natural-language specification.

The Go code is shallowly embedded: Go's reflection view of a caller's schema
struct is modelled by an explicit tree of field descriptions (`GoType`), the
mutable struct value by a matching tree of value slots (`GoVal`), Go maps by
association lists in insertion order with last-write-wins lookup, and the
`os.Exit(0)` help/version paths by a distinct terminal outcome (`PRes.pexit`).
All definitions are executable and kernel-reducible, so concrete runs of the
parser evaluate by `rfl`/`decide`.

Modelling conventions (each noted again at the definition it concerns):
- Go strings are indexed by bytes; the model uses `Char` lists. The two agree
  on ASCII data, which is all the parser's own logic ever produces.
- `strings.ToLower` is modelled ASCII-only (`Char.toLower`).
- Help/version text returned by the out-of-scope `display` package is not
  tracked; only the fact that the process exits (exit code 0) is.
-/

namespace Clifford

/-- Go `reflect.Kind`, restricted to the kinds `parseFields` distinguishes:
`String`, `Int`, `Float64`, `Bool`, `Struct`, and a catch-all for every other
kind (which the switch in `parseFields` sends to its `default` branch). -/
inductive GoKind where
  | kstring
  | kint
  | kfloat64
  | kbool
  | kstruct
  | kother
deriving DecidableEq, Repr

/-- The typed errors of `errors/errors.go`: `ParseError`, `MissingArgError`,
`UnknownSubcommandError`, `UnsupportedFieldTypeError`. -/
inductive GoError where
  | parseError (msg : String)
  | missingArg (field : String)
  | unknownSubcommand (name : String) (suggestion : String)
  | unsupportedField (field : String) (typ : String)
deriving DecidableEq, Repr

/-- Outcome of a parse call: normal return with `nil` error (`ok`), normal
return with an error (`perr`), or termination through `osExit(0)` on a
help/version path (`pexit`). -/
inductive PRes where
  | ok
  | perr (e : GoError)
  | pexit
deriving DecidableEq, Repr

/-- A parsed `float64` as `strconv.ParseFloat` classifies its input: a finite
decimal (kept exactly as significand and power-of-ten exponent, since the
parser never inspects float values), an infinity, or a NaN. -/
inductive GoFloat where
  | finite (m : Int) (e : Int)
  | inf (pos : Bool)
  | nan
deriving DecidableEq, Repr

/-- A Go struct tag, as the ordered list of its key/value entries. -/
abbrev GoTag := List (String × String)

/-- The reflection view of a Go type: its `Name()`, its `Kind()`, and (for
struct kinds) its fields. Each field carries its name, its `Anonymous` flag,
its struct tag, and its own type, in declaration order. -/
inductive GoType : Type where
  | mk (tname : String) (kind : GoKind)
       (fields : List (String × Bool × GoTag × GoType))

/-- One struct field as seen by reflection: `(Name, Anonymous, Tag, Type)`. -/
abbrev GoField := String × Bool × GoTag × GoType

def GoType.tname : GoType → String
  | .mk n _ _ => n

def GoType.kind : GoType → GoKind
  | .mk _ k _ => k

def GoType.fields : GoType → List GoField
  | .mk _ _ fs => fs

/-- The mutable value of a Go struct (or of one of its fields): leaf slots for
the four supported `Value` kinds, a struct value with one entry per field (in
declaration order), and a catch-all for unsupported kinds. -/
inductive GoVal : Type where
  | vstr (s : String)
  | vint (n : Int)
  | vfloat (x : GoFloat)
  | vbool (b : Bool)
  | vstruct (fields : List GoVal)
  | vother

/-- Reading a Go map built by repeated assignment: the last write to a key
wins. The association list records writes in program order. -/
def goMapGet {β : Type} (m : List (String × β)) (k : String) : Option β :=
  m.foldl (fun acc p => if p.1 == k then some p.2 else acc) none

/-- Go `reflect.StructTag.Get`: the first entry for the key, or `""`. -/
def tagGet (tag : GoTag) (k : String) : String :=
  match tag.find? (fun p => p.1 == k) with
  | some p => p.2
  | none => ""

/-- Reading the tags map produced by `GetTagsFromEmbedded` with Go's
zero-value-on-missing-key semantics (`tags["long"]` is `""` when absent). -/
def tagsGet (tags : List (String × String)) (k : String) : String :=
  match goMapGet tags k with
  | some v => v
  | none => ""

/-- Go `strings.HasPrefix s p`. Go compares bytes; the model compares `Char`s,
which agrees on ASCII. -/
def goHasPre (s p : String) : Bool :=
  p.data.isPrefixOf s.data

/-- Go `strings.ToLower`, restricted to ASCII (`Char.toLower` maps `A`-`Z`). -/
def goToLower (s : String) : String :=
  String.mk (s.data.map Char.toLower)

/-! ## Token classification: `buildArgMaps` (core/parse.go lines 18-45) -/

/-- The left-to-right scan of `buildArgMaps`' first loop, started at absolute
index `i`. Returns the flag-value map entries, the flag-position map entries
(both in scan order, so that `goMapGet`'s last-write-wins read matches Go's
map overwrites), and the list of consumed (`used`) indices.
A token is treated as a flag when it has a leading dash
(`strings.HasPrefix(arg, "--") || strings.HasPrefix(arg, "-")`); its value is
the next token when that token exists and does not itself start with a dash,
in which case both indices are consumed and the scan skips the value. -/
def buildArgScan : List String → Nat →
    List (String × String) × List (String × Nat) × List Nat
  | [], _ => ([], [], [])
  | [a], i =>
    if goHasPre a "--" || goHasPre a "-" then ([], [(a, i)], [i])
    else ([], [], [])
  | a :: b :: rest, i =>
    if goHasPre a "--" || goHasPre a "-" then
      if goHasPre b "-" then
        let r := buildArgScan (b :: rest) (i + 1)
        (r.1, (a, i) :: r.2.1, i :: r.2.2)
      else
        let r := buildArgScan rest (i + 2)
        ((a, b) :: r.1, (a, i) :: r.2.1, i :: (i + 1) :: r.2.2)
    else
      let r := buildArgScan (b :: rest) (i + 1)
      r

/-- `buildArgMaps`: the flag-value map, the flag-position map, the positional
tokens (every unconsumed token, in original order), and their original
indices. -/
def buildArgMaps (args : List String) :
    List (String × String) × List (String × Nat) × List String × List Nat :=
  let r := buildArgScan args 0
  let pos := args.enum.filter (fun p => ¬ p.1 ∈ r.2.2)
  (r.1, r.2.1, pos.map Prod.snd, pos.map Prod.fst)

/-! ## Schema introspection: `internal/common` -/

/-- The per-field contribution of `GetTagsFromEmbedded`'s loop body: an
anonymous embedded field contributes according to its type's name (marker
types `ShortTag`, `LongTag`, `Required`, `Desc`, `Subcommand`, and otherwise
the keys `short`, `long`, `desc`, `required`, `subcmd` of its tag); a named
field contributes the keys `default`, `desc`, `required`, `short`, `long`,
`subcmd` of its tag. `fieldName` is the name of the field whose sub-struct is
being inspected (used to derive `ShortTag`/`LongTag` flag names). -/
def tagEntriesOf (fieldName : String) (f : GoField) : List (String × String) :=
  let (_, anon, tag, ftyp) := f
  if anon then
    if ftyp.tname == "ShortTag" then [("short", goToLower (String.mk (fieldName.data.take 1)))]
    else if ftyp.tname == "LongTag" then [("long", goToLower fieldName)]
    else if ftyp.tname == "Required" then [("required", "true")]
    else if ftyp.tname == "Desc" then
      (if tagGet tag "desc" != "" then [("desc", tagGet tag "desc")] else [])
    else if ftyp.tname == "Subcommand" then [("subcmd", "true")]
    else
      ["short", "long", "desc", "required", "subcmd"].filterMap
        (fun k => if tagGet tag k != "" then some (k, tagGet tag k) else none)
  else
    ["default", "desc", "required", "short", "long", "subcmd"].filterMap
      (fun k => if tagGet tag k != "" then some (k, tagGet tag k) else none)

/-- `common.GetTagsFromEmbedded`: walk the fields of the sub-struct type `t`
and build the tags map. Entries are kept in insertion order; `goMapGet` reads
them with Go's overwrite semantics. -/
def GetTagsFromEmbedded (t : GoType) (fieldName : String) : List (String × String) :=
  t.fields.foldl (fun acc f => acc ++ tagEntriesOf fieldName f) []

/-- `common.ArgsIndexOf`: index of the first occurrence of `s`, or `-1`. -/
def ArgsIndexOf (args : List String) (s : String) : Int :=
  match args.findIdx? (fun a => a == s) with
  | some i => Int.ofNat i
  | none => -1

/-- `common.IsStructPtr` of a `*T` target, decided on the model's view of the
pointed-to type: the target is valid when `T` is a struct kind. -/
def IsStructPtr (t : GoType) : Bool :=
  t.kind == GoKind.kstruct

/-- Loop body of `common.MetaArgEnabled`. -/
def metaLoop : List GoField → String → Bool
  | [], _ => false
  | (fname, _, tag, ftyp) :: rest, s =>
    if ftyp.tname != "Clifford" then
      if ftyp.tname == s then true else metaLoop rest s
    else if tagGet tag s != "" then true
    else if fname == s then true
    else metaLoop rest s

/-- `common.MetaArgEnabled`: true when the root struct has a `Clifford` field
whose tag has key `s` or whose field name is `s`, or any field whose type is
named `s`. -/
def MetaArgEnabled (s : String) (t : GoType) : Bool :=
  metaLoop t.fields s

/-- The help-exposure-mode scan at the top of `parseFields`: the first field
whose type is named `Help` fixes the mode from its `help` tag, else its
`type` tag, else the default `flag`; without such a field the mode is
`flag`. -/
def findHelpMode : List GoField → String
  | [] => "flag"
  | (_, _, tag, ftyp) :: rest =>
    if ftyp.tname == "Help" then
      if tagGet tag "help" != "" then tagGet tag "help"
      else if tagGet tag "type" != "" then tagGet tag "type"
      else "flag"
    else findHelpMode rest

/-! ## `strconv` conversions used by the `Value`-slot switch -/

/-- `strconv.Atoi`: optional sign, then one or more base-10 digits, value
within `int64` range. Anything else (including range overflow, for which Go
returns a non-nil error) yields `none`. -/
def goAtoi (s : String) : Option Int :=
  let (sign, digits) :=
    match s.data with
    | '-' :: rest => ((-1 : Int), rest)
    | '+' :: rest => ((1 : Int), rest)
    | l => ((1 : Int), l)
  if digits.isEmpty then none
  else if digits.all (fun c => c.isDigit) then
    let n : Nat := digits.foldl (fun a c => a * 10 + (c.toNat - 48)) 0
    let v : Int := sign * Int.ofNat n
    if -(2 ^ 63) ≤ v ∧ v ≤ 2 ^ 63 - 1 then some v else none
  else none

/-- `strconv.ParseBool`: exactly the tokens Go accepts. -/
def goParseBool (s : String) : Option Bool :=
  if s == "1" || s == "t" || s == "T" || s == "TRUE" || s == "true" || s == "True" then
    some true
  else if s == "0" || s == "f" || s == "F" || s == "FALSE" || s == "false" || s == "False" then
    some false
  else none

/-- Digits of a decimal mantissa with at most one dot: returns the digits and
the number of digits after the dot, or `none` if malformed or empty. -/
def readMantissa (l : List Char) : Option (List Char × Nat) :=
  let beforeDot := l.takeWhile (fun c => c.isDigit)
  let rest := l.drop beforeDot.length
  match rest with
  | [] => if beforeDot.isEmpty then none else some (beforeDot, 0)
  | '.' :: tl =>
    let afterDot := tl.takeWhile (fun c => c.isDigit)
    if tl.drop afterDot.length ≠ [] then none
    else if beforeDot.isEmpty && afterDot.isEmpty then none
    else some (beforeDot ++ afterDot, afterDot.length)
  | _ => none

/-- Digits-to-Nat accumulator. -/
def digitsToNat (l : List Char) : Nat :=
  l.foldl (fun a c => a * 10 + (c.toNat - 48)) 0

/-- `strconv.ParseFloat(s, 64)`, modelled on its decimal and inf/nan forms:
optional sign; `inf`/`infinity` (case-insensitive, sign allowed) and `nan`
(case-insensitive, no sign); otherwise a decimal mantissa with optional
fraction and optional `e`/`E` exponent. Hexadecimal floats and digit-group
underscores, which Go also accepts, are not modelled; no claim touches such
inputs, and their absence only narrows the set of accepted strings. The
numeric value is kept exactly as (significand, base-10 exponent). -/
def goParseFloat (s : String) : Option GoFloat :=
  if goToLower s == "nan" then some GoFloat.nan
  else
    let (pos, body) :=
      match s.data with
      | '-' :: rest => (false, rest)
      | '+' :: rest => (true, rest)
      | l => (true, l)
    let lowBody := (String.mk body).data.map Char.toLower
    if lowBody == "inf".data || lowBody == "infinity".data then
      some (GoFloat.inf pos)
    else
      let expSplit := body.takeWhile (fun c => c != 'e' && c != 'E')
      let mantPart := expSplit
      let rest := body.drop expSplit.length
      match readMantissa mantPart with
      | none => none
      | some (digits, frac) =>
        let m : Int := (if pos then 1 else -1) * Int.ofNat (digitsToNat digits)
        match rest with
        | [] => some (GoFloat.finite m (-(Int.ofNat frac)))
        | _ :: expBody =>
          let (esign, edigits) :=
            match expBody with
            | '-' :: tl => ((-1 : Int), tl)
            | '+' :: tl => ((1 : Int), tl)
            | l => ((1 : Int), l)
          if edigits.isEmpty || ¬ edigits.all (fun c => c.isDigit) then none
          else some (GoFloat.finite m (esign * Int.ofNat (digitsToNat edigits) - Int.ofNat frac))

/-! ## Suggestion engine: `closestMatch` (core/parse.go lines 338-452) -/

/-- Source helper `abs` on ints. -/
def goAbs (a : Int) : Int :=
  if a < 0 then -a else a

/-- Source helper `max` on ints (used at the threshold check); stated on Nat
since both arguments are non-negative there. -/
def goMax (a b : Nat) : Nat :=
  if a > b then a else b

/-- Indices at which two equal-length char lists differ. -/
def diffIdx (a b : List Char) : List Nat :=
  ((a.zip b).enum.filter (fun p => p.2.1 != p.2.2)).map Prod.fst

/-- `isTransposition`: equal lengths, at least 2 chars, exactly two differing
positions whose characters are swapped. (Go early-exits after three diffs;
the result is the same as checking the full diff list has length two.) -/
def isTransposition (a b : String) : Bool :=
  if a.length != b.length || a.length < 2 then false
  else
    match diffIdx a.data b.data with
    | [i, j] => a.data.getD i ' ' == b.data.getD j ' ' && a.data.getD j ' ' == b.data.getD i ' '
    | _ => false

/-- One row update of the Levenshtein dynamic program: `prev` starts at
column `j-1`; `left` is the already-computed entry `curr[j-1]`. -/
def levRowAux (ai : Char) : List Char → List Nat → Nat → List Nat
  | [], _, _ => []
  | _ :: _, [], _ => []
  | bj :: brest, pjm1 :: prest, left =>
    let pj := prest.headD 0
    let cost := if ai == bj then 0 else 1
    let m := Nat.min (pj + 1) (Nat.min (left + 1) (pjm1 + cost))
    m :: levRowAux ai brest prest m

/-- Iterate the row update over the characters of `a` (row index `i`). -/
def levRows : List Char → List Char → List Nat → Nat → List Nat
  | [], _, prev, _ => prev
  | ai :: arest, bs, prev, i => levRows arest bs (i :: levRowAux ai bs prev i) (i + 1)

/-- `levenshtein`: edit distance via the two-row dynamic program of the
source, with its `a == b`, `len 0` fast paths. -/
def levenshtein (a b : String) : Nat :=
  if a == b then 0
  else if a.length == 0 then b.length
  else if b.length == 0 then a.length
  else (levRows a.data b.data (List.range (b.length + 1)) 1).getLastD 0

/-- The candidate loop of `closestMatch` after the prefix pass: `best` holds
the best candidate and distance so far (`none` models `bestDist == -1`).
Candidates whose lower-cased length differs from `low`'s by more than 3 are
skipped; a transposition returns immediately; otherwise the first strictly
smaller distance updates `best`. At the end the best candidate is suggested
only when its distance is at most `max 2 (len low / 3)`. -/
def cmScan (low : String) : List String → Option (String × Nat) → String
  | [], best =>
    match best with
    | some (bc, bd) => if bd ≤ goMax 2 (low.length / 3) then bc else ""
    | none => ""
  | c :: rest, best =>
    let lc := goToLower c
    if goAbs (Int.ofNat lc.length - Int.ofNat low.length) > 3 then cmScan low rest best
    else if isTransposition low lc then c
    else
      let d := levenshtein low lc
      match best with
      | none => cmScan low rest (some (c, d))
      | some (bc, bd) =>
        if d < bd then cmScan low rest (some (c, d)) else cmScan low rest (some (bc, bd))

/-- `closestMatch`: empty target or no candidates yield no suggestion; a
case-insensitive prefix match returns the first such candidate immediately;
otherwise the distance loop decides. -/
def closestMatch (target : String) (candidates : List String) : String :=
  if target == "" || candidates.isEmpty then ""
  else
    let low := goToLower target
    match candidates.find? (fun c => goHasPre (goToLower c) low) with
    | some c => c
    | none => cmScan low candidates none

/-! ## Field resolution: `parseFields` (core/parse.go lines 47-208) -/

/-- The per-field lookup chain of `parseFields`' loop (lines 123-172): long
flag value, short flag value, long flag presence (`"true"`), short flag
presence (`"true"`), positional token (advancing the shared cursor), declared
non-empty default. Returns the matched value (`none` when not found) and the
updated positional cursor. -/
def resolveValue (tags : List (String × String)) (argMap : List (String × String))
    (argIndex : List (String × Nat)) (positionals : List String) (pIdx : Nat) :
    Option String × Nat :=
  let longFlag := "--" ++ tagsGet tags "long"
  let shortFlag := "-" ++ tagsGet tags "short"
  if tagsGet tags "long" != "" && (goMapGet argMap longFlag).isSome then
    (goMapGet argMap longFlag, pIdx)
  else if tagsGet tags "short" != "" && (goMapGet argMap shortFlag).isSome then
    (goMapGet argMap shortFlag, pIdx)
  else if tagsGet tags "long" != "" && (goMapGet argIndex longFlag).isSome then
    (some "true", pIdx)
  else if tagsGet tags "short" != "" && (goMapGet argIndex shortFlag).isSome then
    (some "true", pIdx)
  else if tagsGet tags "short" == "" && tagsGet tags "long" == "" && pIdx < positionals.length then
    (positionals.get? pIdx, pIdx + 1)
  else
    match goMapGet tags "default" with
    | some d => if d != "" then (some d, pIdx) else (none, pIdx)
    | none => (none, pIdx)

/-- Index of the first field named `Value` (reflect `FieldByName("Value")`,
restricted to direct fields: the schemas this library documents always
declare `Value` directly). -/
def findValueIdx : List GoField → Nat → Option Nat
  | [], _ => none
  | (fname, _, _, _) :: rest, j =>
    if fname == "Value" then some j else findValueIdx rest (j + 1)

/-- The `switch valField.Kind()` of lines 186-203, acting on one `Value`
slot: strings are overwritten; int/float/bool slots are overwritten only when
the conversion succeeds and are left untouched (with a `nil` error) when it
fails; any other kind returns `UnsupportedFieldTypeError`. The kind string of
the unmodelled catch-all kind is rendered `"other"`. -/
def coerceSlot (slot : GoVal) (fname : String) (value : String) : GoVal × Option GoError :=
  match slot with
  | GoVal.vstr _ => (GoVal.vstr value, none)
  | GoVal.vint old =>
    match goAtoi value with
    | some n => (GoVal.vint n, none)
    | none => (GoVal.vint old, none)
  | GoVal.vfloat old =>
    match goParseFloat value with
    | some x => (GoVal.vfloat x, none)
    | none => (GoVal.vfloat old, none)
  | GoVal.vbool old =>
    match goParseBool value with
    | some b => (GoVal.vbool b, none)
    | none => (GoVal.vbool old, none)
  | GoVal.vstruct l => (GoVal.vstruct l, some (GoError.unsupportedField fname "struct"))
  | GoVal.vother => (GoVal.vother, some (GoError.unsupportedField fname "other"))

/-- Setting the matched value into the field's `Value` slot (lines 180-204):
a missing (or, in Go, unsettable) `Value` field skips the assignment without
error. -/
def setValueSlot (ftyp : GoType) (fv : GoVal) (fname : String) (value : String) :
    GoVal × Option GoError :=
  match fv with
  | GoVal.vstruct subVals =>
    match findValueIdx ftyp.fields 0 with
    | none => (fv, none)
    | some j =>
      match coerceSlot (subVals.getD j GoVal.vother) fname value with
      | (slot2, none) => (GoVal.vstruct (subVals.set j slot2), none)
      | (_, some e) => (fv, some e)
  | _ => (fv, none)

/-- The field loop of `parseFields` (lines 108-205), walking the fields and
their value slots together. Meta fields (`Clifford`, `Version`, `Help`) and
non-struct fields are skipped; on an error the already-rebuilt prefix keeps
its new values and the remaining slots are returned untouched (Go mutates in
place and returns early, undoing nothing). -/
def fieldsLoop : List GoField → List GoVal → List (String × String) →
    List (String × Nat) → List String → Nat → List GoVal × PRes
  | [], vals, _, _, _, _ => (vals, PRes.ok)
  | _ :: _, [], _, _, _, _ => ([], PRes.ok)
  | (fname, _, _, ftyp) :: rest, fv :: fvrest, argMap, argIndex, positionals, pIdx =>
    if ftyp.tname == "Clifford" || ftyp.tname == "Version" || ftyp.tname == "Help" then
      let r := fieldsLoop rest fvrest argMap argIndex positionals pIdx
      (fv :: r.1, r.2)
    else if ftyp.kind != GoKind.kstruct then
      let r := fieldsLoop rest fvrest argMap argIndex positionals pIdx
      (fv :: r.1, r.2)
    else
      let tags := GetTagsFromEmbedded ftyp fname
      let rv := resolveValue tags argMap argIndex positionals pIdx
      match rv.1 with
      | none =>
        if tagsGet tags "required" == "true" then
          (fv :: fvrest, PRes.perr (GoError.missingArg fname))
        else
          let r := fieldsLoop rest fvrest argMap argIndex positionals rv.2
          (fv :: r.1, r.2)
      | some value =>
        match setValueSlot ftyp fv fname value with
        | (fv2, none) =>
          let r := fieldsLoop rest fvrest argMap argIndex positionals rv.2
          (fv2 :: r.1, r.2)
        | (fv2, some e) => (fv2 :: fvrest, PRes.perr e)

/-- `parseFields`: validity check, token classification, help/version
interception (which prints and calls `osExit(0)`: modelled as `pexit`), then
the field loop. `display.BuildHelp`/`BuildVersion` can only fail on an
invalid target, which the guard here has already excluded, so the print-then-
exit path is unconditional once reached. -/
def parseFields (t : GoType) (v : GoVal) (args : List String) : GoVal × PRes :=
  match t, v with
  | GoType.mk tn GoKind.kstruct tfields, GoVal.vstruct vals =>
    let r := buildArgMaps args
    let argMap := r.1
    let argIndex := r.2.1
    let positionals := r.2.2.1
    let helpMode := findHelpMode tfields
    if helpMode != "subcmd" && MetaArgEnabled "Help" (GoType.mk tn GoKind.kstruct tfields)
        && (goMapGet argIndex "-h").isSome then
      (v, PRes.pexit)
    else if helpMode != "subcmd" && MetaArgEnabled "Help" (GoType.mk tn GoKind.kstruct tfields)
        && (goMapGet argIndex "--help").isSome then
      (v, PRes.pexit)
    else if MetaArgEnabled "Version" (GoType.mk tn GoKind.kstruct tfields)
        && (goMapGet argIndex "--version").isSome then
      (v, PRes.pexit)
    else
      let lr := fieldsLoop tfields vals argMap argIndex positionals 0
      (GoVal.vstruct lr.1, lr.2)
  | _, _ => (v, PRes.perr (GoError.parseError "invalid type: must pass pointer to struct"))

/-! ## Subcommand dispatch: `parseWithArgs` (core/parse.go lines 210-336) -/

/-- The derived subcommand name: the `name` tag when non-empty, else the
lower-cased field name. -/
def subNameOf (tags : List (String × String)) (fname : String) : String :=
  let n := tagsGet tags "name"
  if n == "" then goToLower fname else n

/-- Field `i` of a struct value. -/
def getStructField (v : GoVal) (i : Nat) : GoVal :=
  match v with
  | GoVal.vstruct l => l.getD i GoVal.vother
  | _ => GoVal.vother

/-- Replace field `i` of a struct value. -/
def setStructField (v : GoVal) (i : Nat) (nv : GoVal) : GoVal :=
  match v with
  | GoVal.vstruct l => GoVal.vstruct (l.set i nv)
  | _ => v

/-- Index of the first anonymous field whose type is named `Subcommand`
(the marker-search loop of lines 300-310). -/
def findSubMarker : List GoField → Nat → Option Nat
  | [], _ => none
  | (_, anon, _, ftyp) :: rest, j =>
    if anon && ftyp.tname == "Subcommand" then some j else findSubMarker rest (j + 1)

/-- Mark a matched subcommand selected (lines 298-310): the first anonymous
`Subcommand` field of the sub-struct is set to `true`, but only when that
field's kind is `Bool` (the current `core.Subcommand` marker is a bool; for a
`struct{}`-typed marker the guard fails and nothing is written). -/
def markSelected (ftyp : GoType) (fv : GoVal) : GoVal :=
  match fv with
  | GoVal.vstruct subVals =>
    match findSubMarker ftyp.fields 0 with
    | some j =>
      match subVals.getD j GoVal.vother with
      | GoVal.vbool _ => GoVal.vstruct (subVals.set j (GoVal.vbool true))
      | _ => fv
    | none => fv
  | _ => fv

/-- The `app help [subcommand]` loop (lines 240-268): walk the fields,
collect declared subcommand names, and exit (printing subcommand help) when
the named subcommand advertises `help:"subcmd"` or `help:"both"`. `none`
models the `osExit(0)` path; `some names` the completed loop. -/
def helpSubLoop : List GoField → String → Option (List String)
  | [], _ => some []
  | (fname, _, _, ftyp) :: rest, second =>
    if ftyp.kind != GoKind.kstruct then helpSubLoop rest second
    else
      let tags := GetTagsFromEmbedded ftyp fname
      if tagsGet tags "subcmd" != "true" then helpSubLoop rest second
      else
        let name := subNameOf tags fname
        if name == second && (tagsGet tags "help" == "subcmd" || tagsGet tags "help" == "both") then
          none
        else
          match helpSubLoop rest second with
          | some l => some (name :: l)
          | none => none

/-- All declared subcommand names of a field list, in declaration order. -/
def subNamesOf : List GoField → List String
  | [] => []
  | (fname, _, _, ftyp) :: rest =>
    if ftyp.kind != GoKind.kstruct then subNamesOf rest
    else
      let tags := GetTagsFromEmbedded ftyp fname
      if tagsGet tags "subcmd" != "true" then subNamesOf rest
      else subNameOf tags fname :: subNamesOf rest

/-- The first declared subcommand whose derived name is `first`: its field
index, field name, and type. -/
def subFind : List GoField → String → Nat → Option (Nat × String × GoType)
  | [], _, _ => none
  | (fname, _, _, ftyp) :: rest, first, i =>
    if ftyp.kind != GoKind.kstruct then subFind rest first (i + 1)
    else
      let tags := GetTagsFromEmbedded ftyp fname
      if tagsGet tags "subcmd" != "true" then subFind rest first (i + 1)
      else if subNameOf tags fname == first then some (i, fname, ftyp)
      else subFind rest first (i + 1)

/-- The argument normalization at lines 216-219: drop everything up to and
including the first `--`. -/
def stripArgs (args : List String) : List String :=
  let i := ArgsIndexOf args "--"
  if i ≥ 0 then args.drop (i.toNat + 1) else args

mutual

/-- `parseWithArgs`: the recursive parser with subcommand dispatch. Validity
check; `--` normalization; token classification; with no positional tokens,
plain field resolution; with a first positional `help`, the positional help
form (root help exit, subcommand help exit, or `UnknownSubcommand` when any
subcommand is declared, falling through to the main scan otherwise); and
otherwise the main subcommand scan. -/
def parseWithArgs (t : GoType) (v : GoVal) (args0 : List String) : GoVal × PRes :=
  match t, v with
  | GoType.mk tn GoKind.kstruct tfields, GoVal.vstruct vals =>
    let t0 := GoType.mk tn GoKind.kstruct tfields
    let v0 := GoVal.vstruct vals
    let args := stripArgs args0
    let r := buildArgMaps args
    match r.2.2.1, r.2.2.2 with
    | first :: posRest, posIdx0 :: _ =>
      if first == "help" then
        match posRest with
        | [] => (v0, PRes.pexit)
        | second :: _ =>
          match helpSubLoop tfields second with
          | none => (v0, PRes.pexit)
          | some subNames =>
            if ¬ subNames.isEmpty then
              (v0, PRes.perr (GoError.unknownSubcommand second (closestMatch second subNames)))
            else
              scanSub tfields 0 [] t0 v0 args first posIdx0
      else
        scanSub tfields 0 [] t0 v0 args first posIdx0
    | _, _ => parseFields t0 v0 args
  | _, _ => (v, PRes.perr (GoError.parseError "invalid type: must pass pointer to struct"))

/-- The main subcommand scan (lines 275-331): walk the fields collecting
subcommand names; on the first name equal to `first`, resolve the current
scope's fields with the tokens strictly before `first`'s index, mark the
subcommand selected, intercept `-h`/`--help` among the remaining tokens
(subcommand help, `osExit(0)`), and recurse into the sub-struct with the
tokens after `first`. With no match, fail with `UnknownSubcommand` when any
subcommand was collected, else resolve the whole scope's fields. -/
def scanSub (fs : List GoField) (i : Nat) (acc : List String) (t : GoType) (v : GoVal)
    (args : List String) (first : String) (posIdx0 : Nat) : GoVal × PRes :=
  match fs with
  | [] =>
    if ¬ acc.isEmpty then
      (v, PRes.perr (GoError.unknownSubcommand first (closestMatch first acc)))
    else parseFields t v args
  | (fname, _, _, ftyp) :: rest =>
    if ftyp.kind != GoKind.kstruct then scanSub rest (i + 1) acc t v args first posIdx0
    else
      let tags := GetTagsFromEmbedded ftyp fname
      if tagsGet tags "subcmd" != "true" then scanSub rest (i + 1) acc t v args first posIdx0
      else
        let name := subNameOf tags fname
        if name == first then
          let rootArgs := args.take posIdx0
          match parseFields t v rootArgs with
          | (v1, PRes.ok) =>
            let v2 := setStructField v1 i (markSelected ftyp (getStructField v1 i))
            let subArgs := args.drop (posIdx0 + 1)
            if subArgs.any (fun a => a == "-h" || a == "--help") then (v2, PRes.pexit)
            else
              let res := parseWithArgs ftyp (getStructField v2 i) subArgs
              (setStructField v2 i res.1, res.2)
          | (v1, r) => (v1, r)
        else scanSub rest (i + 1) (acc ++ [name]) t v args first posIdx0

end

/-! ## Specification-shaped doubles

For the claims that describe an algorithm (token classification, the
per-field precedence chain, the suggestion engine), a second definition is
written from the specification's words and compared with the definition
translated from the source. -/

/-- Spec §4.1: a token is "flag-like" if it starts with one or two leading
dashes — equivalently, with a leading dash. -/
def flagLike (tok : String) : Bool :=
  goHasPre tok "-"

/-- Spec §4.1's scan, written over the indexed token list: for each flag-like
token record its index in the flag-position map; if the following token
exists and is not flag-like, record it as the flag's value and consume both
indices; otherwise the flag is a zero-value boolean flag. -/
def specScan : List (Nat × String) →
    List (String × String) × List (String × Nat) × List Nat
  | [] => ([], [], [])
  | [(i, tok)] =>
    if flagLike tok then ([], [(tok, i)], [i]) else ([], [], [])
  | (i, tok) :: (i2, nxt) :: rest =>
    if flagLike tok then
      if flagLike nxt then
        let r := specScan ((i2, nxt) :: rest)
        (r.1, (tok, i) :: r.2.1, i :: r.2.2)
      else
        let r := specScan rest
        ((tok, nxt) :: r.1, (tok, i) :: r.2.1, i :: i2 :: r.2.2)
    else specScan ((i2, nxt) :: rest)

/-- Spec §4.1 classification: after the scan, every unconsumed token, in
original order, becomes a positional token, retaining its original index. -/
def buildArgMapsSpec (args : List String) :
    List (String × String) × List (String × Nat) × List String × List Nat :=
  let r := specScan args.enum
  let pos := args.enum.filter (fun p => ¬ p.1 ∈ r.2.2)
  (r.1, r.2.1, pos.map Prod.snd, pos.map Prod.fst)

/-- Spec §4.2's resolution precedence, written as the ordered first-match
rule list of the specification: (1) long-flag value, (2) short-flag value,
(3) long-flag boolean presence, (4) short-flag boolean presence,
(5) positional token for a field with neither name, (6) declared non-empty
default. `none` means rules 1-6 all failed (the required check and the
zero-value fallback are the caller's steps 7-8). -/
def resolveValueSpec (tags : List (String × String)) (argMap : List (String × String))
    (argIndex : List (String × Nat)) (positionals : List String) (pIdx : Nat) :
    Option String × Nat :=
  let long := tagsGet tags "long"
  let short := tagsGet tags "short"
  match (if long != "" then goMapGet argMap ("--" ++ long) else none) with
  | some w => (some w, pIdx)
  | none =>
    match (if short != "" then goMapGet argMap ("-" ++ short) else none) with
    | some w => (some w, pIdx)
    | none =>
      if long != "" && (goMapGet argIndex ("--" ++ long)).isSome then (some "true", pIdx)
      else if short != "" && (goMapGet argIndex ("-" ++ short)).isSome then (some "true", pIdx)
      else if short == "" && long == "" && pIdx < positionals.length then
        (positionals.get? pIdx, pIdx + 1)
      else if tagsGet tags "default" != "" then (some (tagsGet tags "default"), pIdx)
      else (none, pIdx)

/-- Spec §4.4 rule 3's fold for the minimum-distance candidate (first
minimum wins; the specification does not fix a tie-break, and the source
keeps the first). -/
def specBestStep (low : String) (acc : Option (String × Nat)) (c : String) :
    Option (String × Nat) :=
  let d := levenshtein low (goToLower c)
  match acc with
  | none => some (c, d)
  | some (bc, bd) => if d < bd then some (c, d) else some (bc, bd)

/-- Spec §4.4 rule 3's length window: the candidate's (lower-cased) length
differs from the input's by at most 3. -/
def lenEligible (low c : String) : Bool :=
  goAbs (Int.ofNat (goToLower c).length - Int.ofNat low.length) ≤ 3

/-- Spec §4.4, as the three ordered phases of the specification: (1) first
case-insensitive prefix match; (2) first single-transposition match (the
comparison is case-insensitive, like the engine's other rules); (3) minimum
case-insensitive edit distance over candidates within length distance 3,
bounded by the adaptive threshold. -/
def closestMatchSpec (target : String) (candidates : List String) : String :=
  let low := goToLower target
  match candidates.find? (fun c => goHasPre (goToLower c) low) with
  | some c => c
  | none =>
    let eligible := candidates.filter (lenEligible low)
    match eligible.find? (fun c => isTransposition low (goToLower c)) with
    | some c => c
    | none =>
      match eligible.foldl (specBestStep low) none with
      | some (bc, bd) => if bd ≤ goMax 2 (low.length / 3) then bc else ""
      | none => ""

/-! ## Concrete schemas used by the examples

These mirror the schemas of the repository's tests: meta marker types
(`Clifford`, `Help`, `Subcommand`, `Required`) embedded in anonymous
sub-struct fields, each value-bearing field an anonymous struct with a
`Value` slot. The `Subcommand` marker is bool-kinded (`type Subcommand
bool`), as required by the marking guard at parse.go line 305 and by
`core/inline_test.go`, which converts the marker with `bool(...)` and
asserts it is set after dispatch. -/

def cliffordT : GoType := GoType.mk "Clifford" GoKind.kstruct []
def helpT : GoType := GoType.mk "Help" GoKind.kstruct []
def requiredT : GoType := GoType.mk "Required" GoKind.kstruct []
def subcmdT : GoType := GoType.mk "Subcommand" GoKind.kbool []
def intT : GoType := GoType.mk "int" GoKind.kint []
def stringT : GoType := GoType.mk "string" GoKind.kstring []

/-- `Port struct { Value int; Clifford long:"port" }` -/
def portT : GoType := GoType.mk "" GoKind.kstruct
  [("Value", false, [], intT),
   ("Clifford", true, [("long", "port")], cliffordT)]

def portV : GoVal := GoVal.vstruct [GoVal.vint 0, GoVal.vstruct []]

/-- `Serve struct { Subcommand; Port ... }` -/
def serveFs : List GoField :=
  [("Subcommand", true, [], subcmdT), ("Port", false, [], portT)]

def serveT : GoType := GoType.mk "" GoKind.kstruct serveFs

def serveV : GoVal := GoVal.vstruct [GoVal.vbool false, portV]

/-- Root schema of the subcommand-dispatch example: `Clifford name:"app"`,
`Help`, subcommand `Serve`. -/
def rootFs : List GoField :=
  [("Clifford", true, [("name", "app")], cliffordT),
   ("Help", true, [], helpT),
   ("Serve", false, [], serveT)]

def rootT : GoType := GoType.mk "" GoKind.kstruct rootFs

def rootV : GoVal := GoVal.vstruct [GoVal.vstruct [], GoVal.vstruct [], serveV]

/-- The expected post-parse value for `["serve", "--port", "8080"]`: `serve`
marked selected, `Port` bound to 8080. -/
def rootVDone : GoVal := GoVal.vstruct
  [GoVal.vstruct [], GoVal.vstruct [],
   GoVal.vstruct [GoVal.vbool true, GoVal.vstruct [GoVal.vint 8080, GoVal.vstruct []]]]

/-- Root schema with subcommands `serve` and `status`. -/
def statusT : GoType := GoType.mk "" GoKind.kstruct [("Subcommand", true, [], subcmdT)]

def twoSubFs : List GoField :=
  [("Clifford", true, [("name", "app")], cliffordT),
   ("Serve", false, [], serveT),
   ("Status", false, [], statusT)]

def twoSubT : GoType := GoType.mk "" GoKind.kstruct twoSubFs

def twoSubV : GoVal :=
  GoVal.vstruct [GoVal.vstruct [], serveV, GoVal.vstruct [GoVal.vbool false]]

/-- Schema with one required positional field `Name`. -/
def nameT : GoType := GoType.mk "" GoKind.kstruct
  [("Name", false, [], GoType.mk "" GoKind.kstruct
      [("Value", false, [], stringT), ("Required", true, [], requiredT)])]

def nameV : GoVal := GoVal.vstruct [GoVal.vstruct [GoVal.vstr "", GoVal.vstruct []]]

/-- Schema with one optional positional field `Opt`. -/
def optT : GoType := GoType.mk "" GoKind.kstruct
  [("Opt", false, [], GoType.mk "" GoKind.kstruct [("Value", false, [], stringT)])]

def optV : GoVal := GoVal.vstruct [GoVal.vstruct [GoVal.vstr ""]]

/-- Schema with an optional positional `A` followed by a required positional
`B`. -/
def abT : GoType := GoType.mk "" GoKind.kstruct
  [("A", false, [], GoType.mk "" GoKind.kstruct [("Value", false, [], stringT)]),
   ("B", false, [], GoType.mk "" GoKind.kstruct
      [("Value", false, [], stringT), ("Required", true, [], requiredT)])]

def abV : GoVal := GoVal.vstruct
  [GoVal.vstruct [GoVal.vstr ""], GoVal.vstruct [GoVal.vstr "", GoVal.vstruct []]]

/-- Schema with one integer field with long flag `port`. -/
def c9T : GoType := GoType.mk "" GoKind.kstruct [("Port", false, [], portT)]

def c9V : GoVal := GoVal.vstruct [portV]

/-- Schema with two optional positional fields `Name` and `Age`. -/
def twoPosT : GoType := GoType.mk "" GoKind.kstruct
  [("Name", false, [], GoType.mk "" GoKind.kstruct [("Value", false, [], stringT)]),
   ("Age", false, [], GoType.mk "" GoKind.kstruct [("Value", false, [], stringT)])]

def twoPosV : GoVal :=
  GoVal.vstruct [GoVal.vstruct [GoVal.vstr ""], GoVal.vstruct [GoVal.vstr ""]]

def twoPosVDone : GoVal :=
  GoVal.vstruct [GoVal.vstruct [GoVal.vstr "Alice"], GoVal.vstruct [GoVal.vstr "30"]]

/-! ## Helper lemmas -/

/-- A token starting with `--` starts with `-`; the two-test dash check of
the source collapses to the single-dash test of the specification. -/
theorem dash_or_collapse (a : String) :
    (goHasPre a "--" || goHasPre a "-") = goHasPre a "-" := by
  show (List.isPrefixOf ['-', '-'] a.data || List.isPrefixOf ['-'] a.data)
      = List.isPrefixOf ['-'] a.data
  cases h : a.data with
  | nil => rfl
  | cons c tl =>
    simp only [List.isPrefixOf, Bool.and_true]
    cases hc : ('-' == c) <;> simp

/-- The classification scan of the source equals the specification's scan of
the indexed token list. -/
theorem specScan_eq_buildArgScan :
    ∀ (l : List String) (i : Nat), specScan (List.enumFrom i l) = buildArgScan l i
  | [], _ => rfl
  | [a], i => by
    simp only [List.enumFrom, specScan, buildArgScan, flagLike, dash_or_collapse]
  | a :: b :: rest, i => by
    simp only [List.enumFrom, specScan, buildArgScan, flagLike, dash_or_collapse]
    rw [show ((i + 1, b) :: List.enumFrom (i + 1 + 1) rest)
          = List.enumFrom (i + 1) (b :: rest) from rfl]
    rw [specScan_eq_buildArgScan (b :: rest) (i + 1)]
    rw [show List.enumFrom (i + 1 + 1) rest = List.enumFrom (i + 2) rest from rfl]
    rw [specScan_eq_buildArgScan rest (i + 2)]

/-- C4: token classification is the single left-to-right pass of the
specification: a token is flag-like iff it has a leading dash; each flag-like
token's index goes to the flag-position map; an existing, non-flag-like
follower becomes the flag's value with both indices consumed, and otherwise
the flag is boolean; every unconsumed token becomes a positional token in
original order with its original index. The two concrete equations check the
edge cases the specification singles out: a trailing flag, and two
consecutive flag-like tokens. -/
theorem buildArgMaps_single_pass_classification :
    (∀ args : List String, buildArgMaps args = buildArgMapsSpec args)
    ∧ buildArgMaps ["-a"] = ([], [("-a", 0)], [], [])
    ∧ buildArgMaps ["-a", "-b", "c"]
        = ([("-b", "c")], [("-a", 0), ("-b", 1)], [], []) := by
  refine ⟨fun args => ?_, rfl, rfl⟩
  unfold buildArgMaps buildArgMapsSpec
  rw [show args.enum = List.enumFrom 0 args from rfl, specScan_eq_buildArgScan]

/-- Reading a Go-map association list under an arbitrary accumulator: the
accumulator only surfaces when no entry matches. -/
theorem goMapGet_foldl_acc {β : Type} (m : List (String × β)) (k : String) :
    ∀ acc : Option β,
      m.foldl (fun acc p => if p.1 == k then some p.2 else acc) acc =
        match m.foldl (fun acc p => if p.1 == k then some p.2 else acc) none with
        | some w => some w
        | none => acc := by
  induction m with
  | nil => intro acc; rfl
  | cons q m ih =>
    intro acc
    simp only [List.foldl]
    rw [ih, ih (if q.1 == k then some q.2 else none)]
    cases m.foldl (fun acc p => if p.1 == k then some p.2 else acc) none <;>
      cases hq : (q.1 == k) <;> simp

/-- Cons-step of the last-write-wins map read. -/
theorem goMapGet_cons {β : Type} (p : String × β) (m : List (String × β)) (k : String) :
    goMapGet (p :: m) k =
      match goMapGet m k with
      | some w => some w
      | none => if p.1 == k then some p.2 else none := by
  show m.foldl _ (if p.1 == k then some p.2 else none) = _
  exact goMapGet_foldl_acc m k _

/-- Every value recorded in the flag-value map was a following token that
does not start with a dash. -/
theorem buildArgScan_values_no_dash :
    ∀ (l : List String) (i : Nat) (k v : String),
      goMapGet (buildArgScan l i).1 k = some v → goHasPre v "-" = false
  | [], i, k, v => by
    intro h
    simp [buildArgScan, goMapGet] at h
  | [a], i, k, v => by
    intro h
    cases hc : (goHasPre a "--" || goHasPre a "-") <;>
      simp [buildArgScan, hc, goMapGet] at h
  | a :: b :: rest, i, k, v => by
    intro h
    cases hc : (goHasPre a "--" || goHasPre a "-") with
    | false =>
      simp only [buildArgScan, hc, Bool.false_eq_true, if_false] at h
      exact buildArgScan_values_no_dash (b :: rest) (i + 1) k v h
    | true =>
      cases hb : goHasPre b "-" with
      | true =>
        simp only [buildArgScan, hc, hb, if_true] at h
        exact buildArgScan_values_no_dash (b :: rest) (i + 1) k v h
      | false =>
        simp only [buildArgScan, hc, hb, Bool.false_eq_true, if_true, if_false] at h
        rw [goMapGet_cons] at h
        cases hr : goMapGet (buildArgScan rest (i + 2)).1 k with
        | some w =>
          rw [hr] at h
          cases h
          exact buildArgScan_values_no_dash rest (i + 2) k v hr
        | none =>
          rw [hr] at h
          by_cases hak : (a == k) = true
          · rw [if_pos hak] at h
            cases h
            exact hb
          · rw [if_neg hak] at h
            cases h

/-- C7 (amended): no flag value recorded by token classification starts with
a dash; in particular none of the dash-prefixed reserved tokens `-h`,
`--help`, `--version`, `--` can ever be consumed as an ordinary flag's
value. (The bare word `help` can: see the counterexample.) -/
theorem flag_values_never_dash_reserved :
    ∀ (args : List String) (k v : String),
      goMapGet (buildArgMaps args).1 k = some v →
        goHasPre v "-" = false
          ∧ v ≠ "-h" ∧ v ≠ "--help" ∧ v ≠ "--version" ∧ v ≠ "--" := by
  intro args k v h
  have hv : goHasPre v "-" = false := buildArgScan_values_no_dash args 0 k v h
  refine ⟨hv, ?_, ?_, ?_, ?_⟩ <;> rintro rfl <;> revert hv <;> decide

/-- Witness for C7's theorem at a concrete input. -/
theorem flag_values_never_dash_reserved_witness :
    goMapGet (buildArgMaps ["--a", "b"]).1 "--a" = some "b"
      ∧ (goHasPre "b" "-" = false
          ∧ "b" ≠ "-h" ∧ "b" ≠ "--help" ∧ "b" ≠ "--version" ∧ "b" ≠ "--") :=
  ⟨rfl, flag_values_never_dash_reserved ["--a", "b"] "--a" "b" rfl⟩

/-- C7 counterexample: the reserved bare word `help` is recorded as an
ordinary flag's value, contradicting the claim that the flag-value map never
maps a flag to `"help"`. -/
theorem flag_value_can_be_word_help :
    goMapGet (buildArgMaps ["--cmd", "help"]).1 "--cmd" = some "help" := rfl

/-- The source's per-field lookup chain computes exactly the specification's
ordered first-match rule list. -/
theorem resolveValue_eq_spec (tags argMap : List (String × String))
    (argIndex : List (String × Nat)) (positionals : List String) (pIdx : Nat) :
    resolveValue tags argMap argIndex positionals pIdx =
      resolveValueSpec tags argMap argIndex positionals pIdx := by
  unfold resolveValue resolveValueSpec
  cases hl : (tagsGet tags "long" != "") <;>
    cases hs : (tagsGet tags "short" != "") <;>
      cases hml : goMapGet argMap ("--" ++ tagsGet tags "long") <;>
        cases hms : goMapGet argMap ("-" ++ tagsGet tags "short") <;>
          cases hd : goMapGet tags "default" <;>
            simp_all [tagsGet]

/-- C2: every field binds through the fixed precedence chain — long-flag
value, short-flag value, long boolean presence, short boolean presence,
positional token (advancing the shared cursor), declared non-empty default —
and, at the `parseFields` level, a required field with no match fails with a
missing-argument error naming the field, while an optional one keeps its
zero value. The schema with one required positional field `Name` and empty
input fails with `MissingArgError "Name"`. -/
theorem field_resolution_precedence :
    (∀ (tags argMap : List (String × String)) (argIndex : List (String × Nat))
        (positionals : List String) (pIdx : Nat),
        resolveValue tags argMap argIndex positionals pIdx =
          resolveValueSpec tags argMap argIndex positionals pIdx)
    ∧ parseFields nameT nameV [] = (nameV, PRes.perr (GoError.missingArg "Name"))
    ∧ parseFields optT optV [] = (optV, PRes.ok) :=
  ⟨resolveValue_eq_spec, rfl, rfl⟩

/-- The source's single candidate loop (length filter, immediate return on a
transposition, running best distance) computes the specification's phased
form: first transposition among length-eligible candidates, else the
threshold-checked minimum distance. -/
theorem cmScan_eq_phases (low : String) :
    ∀ (cands : List String) (acc : Option (String × Nat)),
      cmScan low cands acc =
        match (cands.filter (lenEligible low)).find?
            (fun c => isTransposition low (goToLower c)) with
        | some c => c
        | none =>
          match (cands.filter (lenEligible low)).foldl (specBestStep low) acc with
          | some (bc, bd) => if bd ≤ goMax 2 (low.length / 3) then bc else ""
          | none => "" := by
  intro cands
  induction cands with
  | nil =>
    intro acc
    cases acc with
    | none => rfl
    | some p => cases p; rfl
  | cons c rest ih =>
    intro acc
    by_cases hle : goAbs (Int.ofNat (goToLower c).length - Int.ofNat low.length) ≤ 3
    case neg =>
      have hgt : goAbs (Int.ofNat (goToLower c).length - Int.ofNat low.length) > 3 :=
        lt_of_not_le hle
      have hfe : lenEligible low c = false := by
        unfold lenEligible
        exact decide_eq_false hle
      have hskip : cmScan low (c :: rest) acc = cmScan low rest acc := by
        simp only [cmScan]
        rw [if_pos hgt]
      rw [hskip, List.filter_cons, hfe]
      simp only [Bool.false_eq_true, if_false]
      exact ih acc
    case pos =>
      have hgt : ¬ goAbs (Int.ofNat (goToLower c).length - Int.ofNat low.length) > 3 :=
        not_lt.mpr hle
      have hfe : lenEligible low c = true := by
        unfold lenEligible
        exact decide_eq_true hle
      rw [List.filter_cons, hfe]
      simp only [if_true]
      by_cases htr : isTransposition low (goToLower c) = true
      · have hret : cmScan low (c :: rest) acc = c := by
          simp only [cmScan]
          rw [if_neg hgt]
          simp [htr]
        rw [hret,
          @List.find?_cons_of_pos String (fun x => isTransposition low (goToLower x)) c
            (rest.filter (lenEligible low)) htr]
      · have hstep : cmScan low (c :: rest) acc = cmScan low rest (specBestStep low acc c) := by
          cases acc with
          | none =>
            simp only [cmScan]
            rw [if_neg hgt]
            simp [htr, specBestStep]
          | some p =>
            cases p with
            | mk bc bd =>
              by_cases hlt : levenshtein low (goToLower c) < bd
              · simp only [cmScan]
                rw [if_neg hgt]
                simp [htr, specBestStep, hlt]
              · simp only [cmScan]
                rw [if_neg hgt]
                simp [htr, specBestStep, hlt]
        rw [hstep, ih (specBestStep low acc c),
          @List.find?_cons_of_neg String (fun x => isTransposition low (goToLower x)) c
            (rest.filter (lenEligible low)) htr, List.foldl_cons]

/-- C5 (amended): for every non-empty mistyped name, the suggestion engine
computes the specification's three ordered rules: first case-insensitive
prefix match, else first single-transposition match among candidates of
eligible length, else the minimum case-insensitive Levenshtein distance over
candidates whose length differs by at most 3, suggested only when that
minimum is at most `max 2 (len input / 3)`. (For the empty name the source
returns no suggestion unconditionally: see the counterexample.) -/
theorem closestMatch_eq_spec (target : String) (cands : List String)
    (h : target ≠ "") :
    closestMatch target cands = closestMatchSpec target cands := by
  unfold closestMatch closestMatchSpec
  have ht : (target == "") = false := by
    simpa using h
  rw [ht]
  simp only [Bool.false_or]
  cases he : cands.isEmpty with
  | true =>
    rw [List.isEmpty_iff] at he
    subst he
    rfl
  | false =>
    simp only [Bool.false_eq_true, if_false]
    cases hf : cands.find? (fun c => goHasPre (goToLower c) (goToLower target)) with
    | some c => rfl
    | none => exact cmScan_eq_phases (goToLower target) cands none

/-- Witness for C5's amended theorem at the specification's own example. -/
theorem closestMatch_eq_spec_witness :
    "srve" ≠ ""
      ∧ closestMatch "srve" ["serve", "status"] = closestMatchSpec "srve" ["serve", "status"]
      ∧ closestMatch "srve" ["serve", "status"] = "serve" :=
  ⟨by decide, closestMatch_eq_spec "srve" ["serve", "status"] (by decide), rfl⟩

/-- C5 counterexample: on the empty mistyped name the engine returns no
suggestion, while rule 1 as claimed (every candidate's lower-cased form has
the empty string as a prefix) would return the first candidate. -/
theorem closestMatch_empty_input_cex :
    closestMatch "" ["serve"] = ""
      ∧ closestMatchSpec "" ["serve"] = "serve"
      ∧ ("" : String) ≠ "serve" :=
  ⟨rfl, rfl, by decide⟩

/-- C8: field resolution is not atomic. For any non-flag token `s`, parsing
the two-positional schema `A` (optional), `B` (required) with input `[s]`
fails with the missing-argument error for `B`, yet the returned state keeps
`A`'s slot bound to `s`: the binding performed before the failing field is
not undone. -/
theorem earlier_bindings_survive_failure :
    ∀ s : String, goHasPre s "-" = false →
      parseFields abT abV [s] =
        (GoVal.vstruct [GoVal.vstruct [GoVal.vstr s],
            GoVal.vstruct [GoVal.vstr "", GoVal.vstruct []]],
         PRes.perr (GoError.missingArg "B")) := by
  intro s hs
  have h2 : goHasPre s "--" = false := by
    have := dash_or_collapse s
    rw [hs] at this
    exact (Bool.or_eq_false_iff.mp this).1
  simp +decide [parseFields, abT, abV, buildArgMaps, buildArgScan, hs, h2, fieldsLoop,
    GetTagsFromEmbedded, tagEntriesOf, tagGet, tagsGet, goMapGet, resolveValue,
    findValueIdx, setValueSlot, coerceSlot, findHelpMode, MetaArgEnabled, metaLoop,
    requiredT, stringT, GoType.tname, GoType.kind, GoType.fields, List.enum]

/-- Witness for C8's theorem at a concrete token. -/
theorem earlier_bindings_survive_failure_witness :
    goHasPre "x" "-" = false
      ∧ parseFields abT abV ["x"] =
          (GoVal.vstruct [GoVal.vstruct [GoVal.vstr "x"],
              GoVal.vstruct [GoVal.vstr "", GoVal.vstruct []]],
           PRes.perr (GoError.missingArg "B")) :=
  ⟨by decide, earlier_bindings_survive_failure "x" (by decide)⟩

/-- C9: a matched string that fails to convert to the slot's declared int,
float, or bool type is silently dropped: the slot keeps its previous value,
no error is produced, and — as the concrete run shows — the parse call still
returns success (`"abc"` for the integer `Port` field). -/
theorem coercion_failure_swallowed :
    (∀ (old : Int) (fname value : String), goAtoi value = none →
        coerceSlot (GoVal.vint old) fname value = (GoVal.vint old, none))
    ∧ (∀ (old : GoFloat) (fname value : String), goParseFloat value = none →
        coerceSlot (GoVal.vfloat old) fname value = (GoVal.vfloat old, none))
    ∧ (∀ (old : Bool) (fname value : String), goParseBool value = none →
        coerceSlot (GoVal.vbool old) fname value = (GoVal.vbool old, none))
    ∧ parseFields c9T c9V ["--port", "abc"] = (c9V, PRes.ok) := by
  refine ⟨?_, ?_, ?_, rfl⟩ <;> intro old fname value h <;> simp [coerceSlot, h]

/-- Witness for C9's theorem: `"abc"` fails integer conversion and the slot
keeps its zero value with no error. -/
theorem coercion_failure_swallowed_witness :
    goAtoi "abc" = none
      ∧ coerceSlot (GoVal.vint 0) "Port" "abc" = (GoVal.vint 0, none) :=
  ⟨rfl, coercion_failure_swallowed.1 0 "Port" "abc" rfl⟩

/-- When the scan finds a first matching subcommand, it dispatches: parent
fields from the tokens before the match, marking, `-h`/`--help` interception
on the remainder, recursion on the remainder. -/
theorem scanSub_dispatch :
    ∀ (fs : List GoField) (i0 : Nat) (acc : List String) (t : GoType) (v : GoVal)
      (args : List String) (first : String) (pi0 : Nat)
      (k : Nat) (fname : String) (ftyp : GoType),
      subFind fs first i0 = some (k, fname, ftyp) →
      scanSub fs i0 acc t v args first pi0 =
        (match parseFields t v (args.take pi0) with
         | (v1, PRes.ok) =>
           let v2 := setStructField v1 k (markSelected ftyp (getStructField v1 k))
           if (args.drop (pi0 + 1)).any (fun a => a == "-h" || a == "--help") then
             (v2, PRes.pexit)
           else
             let res := parseWithArgs ftyp (getStructField v2 k) (args.drop (pi0 + 1))
             (setStructField v2 k res.1, res.2)
         | (v1, r) => (v1, r))
  | [], _, _, _, _, _, _, _, _, _, _ => by
    intro h
    simp [subFind] at h
  | (hname, hanon, htag, hftyp) :: rest, i0, acc, t, v, args, first, pi0, k, fname, ftyp => by
    intro h
    cases h1 : (hftyp.kind != GoKind.kstruct) with
    | true =>
      rw [subFind] at h
      rw [h1] at h
      simp only [if_true] at h
      rw [scanSub, h1]
      simp only [if_true]
      exact scanSub_dispatch rest (i0 + 1) acc t v args first pi0 k fname ftyp h
    | false =>
      rw [subFind] at h
      rw [h1] at h
      simp only [Bool.false_eq_true, if_false] at h
      rw [scanSub, h1]
      simp only [Bool.false_eq_true, if_false]
      cases h2 : (tagsGet (GetTagsFromEmbedded hftyp hname) "subcmd" != "true") with
      | true =>
        rw [h2] at h
        simp only [if_true] at h
        simp only [h2, if_true]
        exact scanSub_dispatch rest (i0 + 1) acc t v args first pi0 k fname ftyp h
      | false =>
        rw [h2] at h
        simp only [Bool.false_eq_true, if_false] at h
        simp only [h2, Bool.false_eq_true, if_false]
        cases h3 : (subNameOf (GetTagsFromEmbedded hftyp hname) hname == first) with
        | true =>
          rw [h3] at h
          simp only [if_true] at h
          cases h
          simp only [h3, if_true]
        | false =>
          rw [h3] at h
          simp only [Bool.false_eq_true, if_false] at h
          simp only [h3, Bool.false_eq_true, if_false]
          exact scanSub_dispatch rest (i0 + 1) (acc ++ [subNameOf
            (GetTagsFromEmbedded hftyp hname) hname]) t v args first pi0 k fname ftyp h

/-- When the scan finds no matching subcommand, it either fails with
`UnknownSubcommand` over all collected names or, with none declared, falls
back to whole-scope field resolution. -/
theorem scanSub_nomatch :
    ∀ (fs : List GoField) (i0 : Nat) (acc : List String) (t : GoType) (v : GoVal)
      (args : List String) (first : String) (pi0 : Nat),
      subFind fs first i0 = none →
      scanSub fs i0 acc t v args first pi0 =
        (if (acc ++ subNamesOf fs).isEmpty then parseFields t v args
         else (v, PRes.perr (GoError.unknownSubcommand first
                 (closestMatch first (acc ++ subNamesOf fs)))))
  | [], i0, acc, t, v, args, first, pi0 => by
    intro _
    rw [scanSub, subNamesOf]
    rw [List.append_nil]
    cases he : acc.isEmpty <;> simp [he]
  | (hname, hanon, htag, hftyp) :: rest, i0, acc, t, v, args, first, pi0 => by
    intro h
    rw [subFind] at h
    rw [scanSub, subNamesOf]
    cases h1 : (hftyp.kind != GoKind.kstruct) with
    | true =>
      rw [h1] at h
      simp only [if_true] at h
      simp only [h1, if_true]
      exact scanSub_nomatch rest (i0 + 1) acc t v args first pi0 h
    | false =>
      rw [h1] at h
      simp only [Bool.false_eq_true, if_false] at h
      simp only [h1, Bool.false_eq_true, if_false]
      cases h2 : (tagsGet (GetTagsFromEmbedded hftyp hname) "subcmd" != "true") with
      | true =>
        rw [h2] at h
        simp only [if_true] at h
        simp only [h2, if_true]
        exact scanSub_nomatch rest (i0 + 1) acc t v args first pi0 h
      | false =>
        rw [h2] at h
        simp only [Bool.false_eq_true, if_false] at h
        simp only [h2, Bool.false_eq_true, if_false]
        cases h3 : (subNameOf (GetTagsFromEmbedded hftyp hname) hname == first) with
        | true =>
          rw [h3] at h
          simp only [if_true] at h
          cases h
        | false =>
          rw [h3] at h
          simp only [Bool.false_eq_true, if_false] at h
          simp only [h3, Bool.false_eq_true, if_false]
          rw [scanSub_nomatch rest (i0 + 1) (acc ++ [subNameOf
            (GetTagsFromEmbedded hftyp hname) hname]) t v args first pi0 h]
          rw [List.append_assoc]
          rfl

/-- `--` at a negative index (absent) leaves the argument list unchanged. -/
theorem stripArgs_of_none (args : List String) (h : ArgsIndexOf args "--" = -1) :
    stripArgs args = args := by
  unfold stripArgs
  rw [h]
  rfl

/-- C1: when the earliest positional token `first` is not the reserved word
`help` and equals the derived name of a declared subcommand (first match, at
field index `k`), the parser resolves the current scope's fields using only
the tokens strictly before `first`'s original index `pi0`, marks that
subcommand's embedded `Subcommand` marker selected, and — unless the
remainder requests subcommand help — recursively parses the child scope with
exactly the tokens after `first`, writing the child's result back into field
`k`. -/
theorem subcommand_dispatch_splits_tokens (tn : String) (tfields : List GoField)
    (vals : List GoVal) (args : List String) (first : String) (posRest : List String)
    (pi0 : Nat) (piRest : List Nat) (k : Nat) (fname : String) (ftyp : GoType)
    (hstrip : ArgsIndexOf args "--" = -1)
    (hpos : (buildArgMaps args).2.2.1 = first :: posRest)
    (hpix : (buildArgMaps args).2.2.2 = pi0 :: piRest)
    (hfirst : first ≠ "help")
    (hfind : subFind tfields first 0 = some (k, fname, ftyp)) :
    parseWithArgs (GoType.mk tn GoKind.kstruct tfields) (GoVal.vstruct vals) args =
      (match parseFields (GoType.mk tn GoKind.kstruct tfields) (GoVal.vstruct vals)
          (args.take pi0) with
       | (v1, PRes.ok) =>
         let v2 := setStructField v1 k (markSelected ftyp (getStructField v1 k))
         if (args.drop (pi0 + 1)).any (fun a => a == "-h" || a == "--help") then
           (v2, PRes.pexit)
         else
           let res := parseWithArgs ftyp (getStructField v2 k) (args.drop (pi0 + 1))
           (setStructField v2 k res.1, res.2)
       | (v1, r) => (v1, r)) := by
  have hf : (first == "help") = false := by
    simpa using hfirst
  rw [parseWithArgs]
  rw [stripArgs_of_none args hstrip, hpos, hpix]
  simp only [hf, Bool.false_eq_true, if_false]
  exact scanSub_dispatch tfields 0 [] _ _ args first pi0 k fname ftyp hfind

/-- Witness for C1's theorem: the specification's own example. `serve`
declares an integer child `Port` (long flag `port`); on
`["serve", "--port", "8080"]` resolution succeeds with `serve` marked
selected and `Port` bound to `8080`. -/
theorem subcommand_dispatch_splits_tokens_witness :
    parseWithArgs rootT rootV ["serve", "--port", "8080"] = (rootVDone, PRes.ok) :=
  (subcommand_dispatch_splits_tokens "" rootFs
    [GoVal.vstruct [], GoVal.vstruct [], serveV] ["serve", "--port", "8080"]
    "serve" [] 0 [] 2 "Serve" serveT rfl rfl rfl (by decide) rfl).trans rfl

/-- C3 (amended): in a scope declaring at least one subcommand, when the
earliest positional token is not the reserved word `help` and matches no
declared subcommand name, parsing fails with `UnknownSubcommand` carrying
that token and the suggestion computed by the suggestion engine over all
declared subcommand names in declaration order. (For the token `help` itself
the positional-help path runs instead: see the counterexample.) -/
theorem unknown_subcommand_with_suggestion (tn : String) (tfields : List GoField)
    (vals : List GoVal) (args : List String) (first : String) (posRest : List String)
    (pi0 : Nat) (piRest : List Nat)
    (hstrip : ArgsIndexOf args "--" = -1)
    (hpos : (buildArgMaps args).2.2.1 = first :: posRest)
    (hpix : (buildArgMaps args).2.2.2 = pi0 :: piRest)
    (hfirst : first ≠ "help")
    (hfind : subFind tfields first 0 = none)
    (hnames : ¬ (subNamesOf tfields).isEmpty = true) :
    parseWithArgs (GoType.mk tn GoKind.kstruct tfields) (GoVal.vstruct vals) args =
      (GoVal.vstruct vals,
        PRes.perr (GoError.unknownSubcommand first
          (closestMatch first (subNamesOf tfields)))) := by
  have hf : (first == "help") = false := by
    simpa using hfirst
  rw [parseWithArgs]
  rw [stripArgs_of_none args hstrip, hpos, hpix]
  simp only [hf, Bool.false_eq_true, if_false]
  rw [scanSub_nomatch tfields 0 [] _ _ args first pi0 hfind]
  rw [List.nil_append]
  simp [hnames]

/-- Witness for C3's amended theorem: subcommands `{serve, status}`, input
`["srve"]`, failing with `UnknownSubcommand` and suggestion `serve`. -/
theorem unknown_subcommand_with_suggestion_witness :
    parseWithArgs twoSubT twoSubV ["srve"] =
        (twoSubV, PRes.perr (GoError.unknownSubcommand "srve"
          (closestMatch "srve" (subNamesOf twoSubFs))))
      ∧ closestMatch "srve" (subNamesOf twoSubFs) = "serve" :=
  ⟨unknown_subcommand_with_suggestion "" twoSubFs
      [GoVal.vstruct [], serveV, GoVal.vstruct [GoVal.vbool false]] ["srve"]
      "srve" [] 0 [] rfl rfl rfl (by decide) rfl (by decide), rfl⟩

/-- C3 counterexample: with subcommands `{serve, status}` declared, the
earliest positional token `"help"` matches no declared subcommand, yet
parsing does not fail with `UnknownSubcommand`: it prints root help and
exits (`osExit(0)`). -/
theorem unknown_subcommand_help_token_cex :
    parseWithArgs twoSubT twoSubV ["help"] = (twoSubV, PRes.pexit)
      ∧ PRes.pexit ≠ PRes.perr (GoError.unknownSubcommand "help"
          (closestMatch "help" (subNamesOf twoSubFs))) :=
  ⟨rfl, by decide⟩

/-- The dispatcher's normalization: with `--` first at index `i`, everything
up to and including it is discarded. -/
theorem stripArgs_of_idx (args : List String) (i : Nat)
    (h : ArgsIndexOf args "--" = Int.ofNat i) :
    stripArgs args = args.drop (i + 1) := by
  unfold stripArgs
  rw [h]
  simp

/-- `parseWithArgs` depends on its argument list only through the
normalization. -/
theorem parseWithArgs_strip_congr (t : GoType) (v : GoVal) (a b : List String)
    (h : stripArgs a = stripArgs b) :
    parseWithArgs t v a = parseWithArgs t v b := by
  cases t with
  | mk tn k fs => cases k <;> cases v <;> simp only [parseWithArgs, h]

/-- C6 (amended): a literal `--` anywhere in the token list makes the
dispatcher discard every token up to and including the (first) `--` before
proceeding; the remainder is then classified normally — so the
specification's example binds the two declared positionals to `"Alice"` and
`"30"`, ignoring the tokens before `--`. (A remaining token with a leading
dash is still classified as a flag, not a positional: see the
counterexample.) -/
theorem dd_separator_discards_head :
    (∀ (t : GoType) (v : GoVal) (args : List String) (i : Nat),
        ArgsIndexOf args "--" = Int.ofNat i →
        ArgsIndexOf (args.drop (i + 1)) "--" = -1 →
        parseWithArgs t v args = parseWithArgs t v (args.drop (i + 1)))
    ∧ parseWithArgs twoPosT twoPosV ["junk", "junk", "--", "Alice", "30"]
        = (twoPosVDone, PRes.ok) := by
  refine ⟨fun t v args i h1 h2 => ?_, rfl⟩
  refine parseWithArgs_strip_congr t v args (args.drop (i + 1)) ?_
  rw [stripArgs_of_idx args i h1, stripArgs_of_none _ h2]

/-- Witness for C6's theorem at a concrete list with `--` at index 1. -/
theorem dd_separator_discards_head_witness :
    ArgsIndexOf ["x", "--", "Alice", "30"] "--" = Int.ofNat 1
      ∧ parseWithArgs twoPosT twoPosV ["x", "--", "Alice", "30"]
          = parseWithArgs twoPosT twoPosV ["Alice", "30"] :=
  ⟨rfl, dd_separator_discards_head.1 twoPosT twoPosV ["x", "--", "Alice", "30"] 1 rfl rfl⟩

/-- C6 counterexample: after `--` the remainder is not treated as
all-positional. On `["--", "-v"]` the remaining token `-v` is classified as
a flag (it lands in the flag-position map, the positional list is empty),
and the declared positional field keeps its zero value instead of binding
`"-v"`. -/
theorem dd_remainder_still_flags_cex :
    parseWithArgs optT optV ["--", "-v"] = (optV, PRes.ok)
      ∧ (buildArgMaps ["-v"]).2.1 = [("-v", 0)]
      ∧ (buildArgMaps ["-v"]).2.2.1 = [] :=
  ⟨rfl, rfl, rfl⟩

/-- A map with no entry for `k` reads as `none`. -/
theorem goMapGet_eq_none {β : Type} (m : List (String × β)) (k : String)
    (h : ∀ p ∈ m, p.1 ≠ k) : goMapGet m k = none := by
  induction m with
  | nil => rfl
  | cons q m ih =>
    rw [goMapGet_cons, ih (fun p hp => h p (List.mem_cons_of_mem q hp))]
    have hq : (q.1 == k) = false := by
      simpa using h q (List.mem_cons_self q m)
    simp [hq]

/-- The tag introspector only ever produces the keys `short`, `long`,
`required`, `desc`, `subcmd`, `default`: any other key is absent from every
field's contribution. -/
theorem tagEntriesOf_no_key (fname : String) (f : GoField) (k : String)
    (hk1 : k ≠ "short") (hk2 : k ≠ "long") (hk3 : k ≠ "required") (hk4 : k ≠ "desc")
    (hk5 : k ≠ "subcmd") (hk6 : k ≠ "default") :
    ∀ e ∈ tagEntriesOf fname f, e.1 ≠ k := by
  obtain ⟨n, anon, tag, ftyp⟩ := f
  intro e he
  unfold tagEntriesOf at he
  cases anon with
  | false =>
    simp only [Bool.false_eq_true, if_false] at he
    rw [List.mem_filterMap] at he
    obtain ⟨a, ha, hae⟩ := he
    have hea : e.1 = a := by
      by_cases hc : (tagGet tag a != "") = true
      · rw [if_pos hc] at hae; cases hae; rfl
      · rw [if_neg hc] at hae; cases hae
    rw [hea]
    fin_cases ha <;> (intro hh; subst hh; simp_all)
  | true =>
    simp only [if_true] at he
    by_cases hA : (GoType.tname ftyp == "ShortTag") = true
    · rw [if_pos hA] at he
      rw [List.mem_singleton] at he
      subst he; exact fun hh => hk1 hh.symm
    rw [if_neg hA] at he
    by_cases hB : (GoType.tname ftyp == "LongTag") = true
    · rw [if_pos hB] at he
      rw [List.mem_singleton] at he
      subst he; exact fun hh => hk2 hh.symm
    rw [if_neg hB] at he
    by_cases hC : (GoType.tname ftyp == "Required") = true
    · rw [if_pos hC] at he
      rw [List.mem_singleton] at he
      subst he; exact fun hh => hk3 hh.symm
    rw [if_neg hC] at he
    by_cases hD : (GoType.tname ftyp == "Desc") = true
    · rw [if_pos hD] at he
      by_cases hE : (tagGet tag "desc" != "") = true
      · rw [if_pos hE] at he
        rw [List.mem_singleton] at he
        subst he; exact fun hh => hk4 hh.symm
      · rw [if_neg hE] at he
        cases he
    rw [if_neg hD] at he
    by_cases hF : (GoType.tname ftyp == "Subcommand") = true
    · rw [if_pos hF] at he
      rw [List.mem_singleton] at he
      subst he; exact fun hh => hk5 hh.symm
    rw [if_neg hF] at he
    rw [List.mem_filterMap] at he
    obtain ⟨a, ha, hae⟩ := he
    have hea : e.1 = a := by
      by_cases hc : (tagGet tag a != "") = true
      · rw [if_pos hc] at hae; cases hae; rfl
      · rw [if_neg hc] at hae; cases hae
    rw [hea]
    fin_cases ha <;> (intro hh; subst hh; simp_all)

/-- The tags map is the in-order concatenation of the per-field
contributions. -/
theorem GetTags_foldl_aux (fname : String) :
    ∀ (fs : List GoField) (acc : List (String × String)),
      fs.foldl (fun acc f => acc ++ tagEntriesOf fname f) acc
        = acc ++ (fs.map (tagEntriesOf fname)).flatten := by
  intro fs
  induction fs with
  | nil => intro acc; simp
  | cons f rest ih => intro acc; simp [ih]

/-- Keys outside the introspector's six are absent from the whole tags
map. -/
theorem GetTags_no_key (t : GoType) (fname k : String)
    (hk1 : k ≠ "short") (hk2 : k ≠ "long") (hk3 : k ≠ "required") (hk4 : k ≠ "desc")
    (hk5 : k ≠ "subcmd") (hk6 : k ≠ "default") :
    goMapGet (GetTagsFromEmbedded t fname) k = none := by
  apply goMapGet_eq_none
  intro p hp
  rw [show GetTagsFromEmbedded t fname = (t.fields.map (tagEntriesOf fname)).flatten from by
    unfold GetTagsFromEmbedded
    rw [GetTags_foldl_aux]
    simp] at hp
  rw [List.mem_flatten] at hp
  obtain ⟨l, hl, hpl⟩ := hp
  rw [List.mem_map] at hl
  obtain ⟨f, _, rfl⟩ := hl
  exact tagEntriesOf_no_key fname f k hk1 hk2 hk3 hk4 hk5 hk6 p hpl

/-- In particular, the introspector never extracts a `help` key, so a
subcommand's help-exposure tag always reads as the empty string. -/
theorem tags_help_empty (t : GoType) (fname : String) :
    tagsGet (GetTagsFromEmbedded t fname) "help" = "" := by
  unfold tagsGet
  rw [GetTags_no_key t fname "help" (by decide) (by decide) (by decide) (by decide)
    (by decide) (by decide)]

/-- The `app help <subcommand>` loop therefore never takes its exit branch:
it always completes with all declared subcommand names collected. -/
theorem helpSubLoop_complete :
    ∀ (fs : List GoField) (second : String),
      helpSubLoop fs second = some (subNamesOf fs)
  | [], _ => rfl
  | (fname, anon, tag, ftyp) :: rest, second => by
    rw [helpSubLoop, subNamesOf]
    cases h1 : (ftyp.kind != GoKind.kstruct) with
    | true =>
      simp only [h1, if_true]
      exact helpSubLoop_complete rest second
    | false =>
      simp only [h1, Bool.false_eq_true, if_false]
      cases h2 : (tagsGet (GetTagsFromEmbedded ftyp fname) "subcmd" != "true") with
      | true =>
        simp only [h2, if_true]
        exact helpSubLoop_complete rest second
      | false =>
        simp only [h2, Bool.false_eq_true, if_false]
        have hcond : (subNameOf (GetTagsFromEmbedded ftyp fname) fname == second
            && (tagsGet (GetTagsFromEmbedded ftyp fname) "help" == "subcmd"
              || tagsGet (GetTagsFromEmbedded ftyp fname) "help" == "both")) = false := by
          rw [tags_help_empty]
          simp
        simp only [hcond, Bool.false_eq_true, if_false]
        rw [helpSubLoop_complete rest second]

/-- Every list is a prefix of itself. -/
theorem goHasPre_refl (s : String) : goHasPre s s = true := by
  unfold goHasPre
  induction s.data with
  | nil => rfl
  | cons c tl ih => simp [List.isPrefixOf, ih]

/-- A declared name is suggested for itself: for a nonempty `s` among the
candidates, the engine's prefix rule returns a (nonempty) candidate. -/
theorem closestMatch_ne_empty_of_mem (s : String) (cands : List String)
    (hs : s ≠ "") (hm : s ∈ cands) : closestMatch s cands ≠ "" := by
  unfold closestMatch
  have h0 : (s == "") = false := by
    simpa using hs
  rw [h0]
  have hne : cands.isEmpty = false := by
    cases he : cands.isEmpty
    · rfl
    · rw [List.isEmpty_iff] at he
      subst he
      cases hm
  rw [hne]
  simp only [Bool.or_self, Bool.false_eq_true, if_false]
  have hsome : (cands.find? (fun c => goHasPre (goToLower c) (goToLower s))).isSome := by
    rw [List.find?_isSome]
    exact ⟨s, hm, goHasPre_refl (goToLower s)⟩
  obtain ⟨c, hc⟩ := Option.isSome_iff_exists.mp hsome
  rw [hc]
  have hpc : goHasPre (goToLower c) (goToLower s) = true :=
    @List.find?_some String (fun c => goHasPre (goToLower c) (goToLower s)) c cands hc
  show c ≠ ""
  intro hcc
  subst hcc
  have hd : s.data ≠ [] := by
    intro hl
    apply hs
    cases s
    simp_all
  cases hl : s.data with
  | nil => exact hd hl
  | cons a tl =>
    unfold goHasPre goToLower at hpc
    rw [hl] at hpc
    simp [List.isPrefixOf] at hpc

/-- C10: for a schema declaring at least one subcommand and any declared
subcommand name `s`, the input `["help", s]` never emits subcommand help:
since the tag introspector never extracts a `help` key, the exposure-mode
guard cannot hold, and the call returns `UnknownSubcommand` with name `s`
and a non-empty suggestion (the first declared name having `s` as a
case-insensitive prefix — `s` itself qualifies). -/
theorem help_subcommand_form_never_emits (tn : String) (tfields : List GoField)
    (vals : List GoVal) (s : String)
    (hs : s ≠ "") (hdash : goHasPre s "-" = false)
    (hmem : s ∈ subNamesOf tfields) :
    parseWithArgs (GoType.mk tn GoKind.kstruct tfields) (GoVal.vstruct vals) ["help", s] =
      (GoVal.vstruct vals,
        PRes.perr (GoError.unknownSubcommand s (closestMatch s (subNamesOf tfields))))
      ∧ closestMatch s (subNamesOf tfields) ≠ "" := by
  refine ⟨?_, closestMatch_ne_empty_of_mem s _ hs hmem⟩
  have h2 : goHasPre s "--" = false := by
    have := dash_or_collapse s
    rw [hdash] at this
    exact (Bool.or_eq_false_iff.mp this).1
  have hsd : (s == "--") = false := by
    cases hq : (s == "--")
    · rfl
    · exfalso
      have := eq_of_beq hq
      subst this
      exact absurd hdash (by decide)
  have hstrip : stripArgs ["help", s] = ["help", s] := by
    apply stripArgs_of_none
    unfold ArgsIndexOf
    simp +decide [List.findIdx?_cons, hsd]
  have hbuild : buildArgMaps ["help", s] = ([], [], ["help", s], [0, 1]) := by
    simp +decide [buildArgMaps, buildArgScan, hdash, h2, List.enum]
  rw [parseWithArgs, hstrip, hbuild]
  have hne : (subNamesOf tfields).isEmpty = false := by
    cases he : (subNamesOf tfields).isEmpty
    · rfl
    · rw [List.isEmpty_iff] at he
      rw [he] at hmem
      cases hmem
  simp only [helpSubLoop_complete tfields s, hne]
  simp

/-- Witness for C10's theorem with subcommands `{serve, status}` and
`s = "serve"`. -/
theorem help_subcommand_form_never_emits_witness :
    parseWithArgs twoSubT twoSubV ["help", "serve"] =
        (twoSubV, PRes.perr (GoError.unknownSubcommand "serve"
          (closestMatch "serve" (subNamesOf twoSubFs))))
      ∧ closestMatch "serve" (subNamesOf twoSubFs) ≠ "" :=
  help_subcommand_form_never_emits "" twoSubFs
    [GoVal.vstruct [], serveV, GoVal.vstruct [GoVal.vbool false]] "serve"
    (by decide) (by decide) (by decide)

end Clifford
